import Mathlib

/-!
Verification of the vscode-tslint validation pipeline and fix reconciliation.

The definitions below are a shallow embedding of the TypeScript sources:

* `tslint-server/src/commands.ts` — the fix-reconciliation core
  (`sortFixes`, `overlaps`, `getLastEdit`, `getAllNonOverlappingFixes`,
  the same-rule/all walk of `onCodeAction`, `recordCodeAction`,
  `computeKey`, `createAutoFix`, `createDisableRuleFix`,
  `replacementsAreEmpty`).
* `tslint-server/src/fixer` (exported as `createVscFixForRuleFailure`) —
  the table of built-in fallback fixes.
* the `TsLintRunner` (runner variant): `ConfigCache`, `getConfiguration`,
  `doRun` with its `console.warn` interception.
* the language-server variant of `doValidate` with its try/catch around the
  engine call.

Modelling conventions:

* machine numbers are `Nat`/`Int`; strings are Lean `String`s;
* JavaScript `Map`s/objects used as dictionaries are association lists with
  JS-object update semantics (`alistSet` overwrites in place, appends new
  keys at the end);
* external capabilities (the tslint engine, `minimatch`, `path.normalize`,
  the file system) are parameters of the embedded functions;
* exceptions are `Except`; a `try`/`catch` becomes a `match` on the
  `Except` value, a `try`/`finally` applies the finaliser on both branches;
* the relational comparison `posA < posB` in the `sortFixes` comparator
  compares two LSP `Position` objects.  In JavaScript both operands coerce
  to the same primitive string, so every such comparison is false
  (`posObjLt`), the comparator returns 0 for every pair, and
  `Array.prototype.sort` (stable) never reorders: `sortFixes` is the
  identity on the list, which the stable `insertionSort` under the
  constant comparator reproduces;
* `a.edits[0]` on a possibly-empty list is modelled with `List.headD` and a
  zero default edit; every fix built by the program has at least one edit.
-/

namespace VscTslint

/-- LSP position (`server.Position`): zero-based line and character. -/
structure Pos where
  line : Nat
  character : Nat
deriving DecidableEq, Repr

/-- Strict lexicographic order on positions; used to state separation and
intersection of ranges (the order the comparator's comments assume). -/
def posLt (a b : Pos) : Bool :=
  decide (a.line < b.line) || (decide (a.line = b.line) && decide (a.character < b.character))

/-- The relational comparison `posA < posB` as the source actually performs
it: both operands are `Position` objects, so JavaScript coerces each to the
primitive string "[object Object]" and the comparison is false for every
pair of positions. -/
def posObjLt (_a _b : Pos) : Bool :=
  false

/-- Lexicographic order on positions, non-strict variant (used to state
that an edit range is well formed: start not after end). -/
def posLe (a b : Pos) : Bool :=
  decide (a.line < b.line) || (decide (a.line = b.line) && decide (a.character ≤ b.character))

/-- One text edit of an autofix (`TSLintAutofixEdit`): a `[start, end]`
position pair and the replacement text. -/
structure TSLintAutofixEdit where
  range : Pos × Pos
  text : String
deriving DecidableEq, Repr

/-- Position of a rule failure (`tslint.RuleFailurePosition`): absolute
character offset (`getPosition()`) and line/character
(`getLineAndCharacter()`). -/
structure RuleFailurePos where
  position : Nat
  lineAndCharacter : Pos
deriving DecidableEq, Repr

/-- One replacement of a tslint fix (`tslint.Replacement`). The source
fields are `start`, `end` and `text`; `end` is a Lean keyword, so the end
offset is called `stop` here. -/
structure Replacement where
  start : Nat
  stop : Nat
  text : String
deriving DecidableEq, Repr

/-- An engine-provided fix (`tslint.Fix`): tslint 4 wraps the replacements
in an object (`withReplacements`), tslint 5 passes a single replacement or
an array of replacements. -/
inductive Fix where
  | withReplacements (replacements : List Replacement)
  | single (replacement : Replacement)
  | multi (replacements : List Replacement)
deriving DecidableEq, Repr

/-- A rule failure reported by the engine (`tslint.RuleFailure`), with the
accessors the server uses (`getFileName`, `getRuleName`, `getFailure`,
`getRuleSeverity`, `getStartPosition`, `getEndPosition`, `getFix`). -/
structure RuleFailure where
  fileName : String
  ruleName : String
  failure : String
  ruleSeverity : String
  startPos : RuleFailurePos
  endPos : RuleFailurePos
  fix : Option Fix
deriving DecidableEq, Repr

/-- A text document (`server.TextDocument`) with the fields the server
reads: uri, version, language id and text. -/
structure TextDocument where
  uri : String
  version : Int
  languageId : String
  text : String
deriving DecidableEq, Repr

/-- A recorded autofix (`AutoFix` in `commands.ts`). -/
structure AutoFix where
  label : String
  documentVersion : Int
  problem : RuleFailure
  edits : List TSLintAutofixEdit
deriving DecidableEq, Repr

/-- Default edit standing for the JavaScript `undefined` produced by
`edits[0]` on an empty list; the program only sorts fixes with at least
one edit. -/
def defaultEdit : TSLintAutofixEdit :=
  { range := (⟨0, 0⟩, ⟨0, 0⟩), text := "" }

/-- First edit of a fix (`a.edits[0]` in `sortFixes`). -/
def headEdit (a : AutoFix) : TSLintAutofixEdit :=
  a.edits.headD defaultEdit

/-- Comparator body of `sortFixes` (commands.ts lines 256-275): compare the
first edit's start position, then its end position; `-1`, `1`, `0` as in
the source.  The comparisons are `posObjLt` because the source applies `<`
and `>` to `Position` objects, which is always false in JavaScript, so the
comparator returns 0 for every pair. -/
def fixSortCompare (a b : AutoFix) : Int :=
  if posObjLt (headEdit a).range.1 (headEdit b).range.1 then -1
  else if posObjLt (headEdit b).range.1 (headEdit a).range.1 then 1
  else if posObjLt (headEdit a).range.2 (headEdit b).range.2 then -1
  else if posObjLt (headEdit b).range.2 (headEdit a).range.2 then 1
  else 0

/-- Non-strict order induced by the `sortFixes` comparator: `a` may come
before `b` exactly when the comparator does not demand the swap. -/
def fixLe (a b : AutoFix) : Bool :=
  decide (fixSortCompare a b ≤ 0)

/-- Propositional form of `fixLe`, the order `sortFixes` sorts by. -/
def fixLeP (a b : AutoFix) : Prop :=
  fixLe a b = true

instance : DecidableRel fixLeP := fun a b => by
  unfold fixLeP; infer_instance

/-- The `sortFixes` function (commands.ts lines 254-276): a stable sort by
the comparator, as `Array.prototype.sort` performs (modelled by the stable
`insertionSort`).  Because the comparator is constantly 0, the stable sort
never reorders: `sortFixes` is the identity on its input. -/
def sortFixes (fixes : List AutoFix) : List AutoFix :=
  fixes.insertionSort fixLeP

/-- Overlap test for one pair of edits: the body of the inner callback of
`overlaps` (commands.ts lines 285-294). -/
def editPairOverlaps (last next : TSLintAutofixEdit) : Bool :=
  if decide (last.range.2.line > next.range.1.line) then true
  else if decide (last.range.2.line < next.range.1.line) then false
  else decide (last.range.2.character ≥ next.range.1.character)

/-- The `overlaps` function (commands.ts lines 278-298): a missing last fix
never overlaps; otherwise some edit of the last fix must reach some edit of
the next fix. -/
def overlaps (lastFix : Option AutoFix) (nextFix : AutoFix) : Bool :=
  match lastFix with
  | none => false
  | some lastFix =>
    lastFix.edits.any fun last =>
      nextFix.edits.any fun next => editPairOverlaps last next

/-- The `getLastEdit` function (commands.ts lines 300-306). -/
def getLastEdit (array : List AutoFix) : Option AutoFix :=
  array.getLast?

/-- Loop body of `getAllNonOverlappingFixes` (commands.ts lines 311-315):
greedily accept a fix when it does not overlap the most recently accepted
one. -/
def nonOverlapLoop (nonOverlapping : List AutoFix) : List AutoFix → List AutoFix
  | [] => nonOverlapping
  | autofix :: rest =>
    if overlaps (getLastEdit nonOverlapping) autofix then
      nonOverlapLoop nonOverlapping rest
    else
      nonOverlapLoop (nonOverlapping ++ [autofix]) rest

/-- The `getAllNonOverlappingFixes` function (commands.ts lines 308-317). -/
def getAllNonOverlappingFixes (fixes : List AutoFix) : List AutoFix :=
  nonOverlapLoop [] (sortFixes fixes)

/-- Loop of `onCodeAction` (commands.ts lines 93-103) that builds the
same-rule batch (pushed when the rule matches and there is no overlap with
the last same-rule fix) and the all batch (pushed when there is no overlap
with the last accepted fix) in one pass over the sorted fixes. -/
def onCodeActionLoop (ruleId : String) (same all : List AutoFix) :
    List AutoFix → List AutoFix × List AutoFix
  | [] => (same, all)
  | autofix :: rest =>
    onCodeActionLoop ruleId
      (if autofix.problem.ruleName == ruleId && !overlaps (getLastEdit same) autofix then
        same ++ [autofix]
      else same)
      (if !overlaps (getLastEdit all) autofix then all ++ [autofix] else all)
      rest

/-- Same-rule/all batch construction of `onCodeAction` (commands.ts lines
86-103): sort the document's fixes, then run the greedy walk for both
accumulators. -/
def onCodeActionWalk (ruleId : String) (fixes : List AutoFix) :
    List AutoFix × List AutoFix :=
  onCodeActionLoop ruleId [] [] (sortFixes fixes)

/-- Offset-to-position conversion of the document model
(`document.positionAt`): line and character of the clamped character
offset, with the newline character as the line break. -/
def positionAt (text : String) (offset : Nat) : Pos :=
  let chars := text.toList.take offset
  { line := chars.count (Char.ofNat 10),
    character := (chars.reverse.takeWhile fun c => c ≠ Char.ofNat 10).length }

/-- JavaScript `String.prototype.slice` restricted to the non-negative
in-range indices the fixer uses. -/
def textSlice (text : String) (a b : Nat) : String :=
  String.mk ((text.toList.drop a).take (b - a))

/-- LSP range; the source fields are `start` and `end`, and `end` is a
Lean keyword, so the end position is called `stop` here. -/
structure Range where
  start : Pos
  stop : Pos
deriving DecidableEq, Repr

/-- LSP diagnostic with the fields the server fills in. -/
structure Diagnostic where
  severity : Nat
  message : String
  range : Range
  code : String
  source : String
deriving DecidableEq, Repr

/-- The LSP severity constants used by `makeDiagnostic`. -/
def diagnosticSeverityError : Nat := 1

def diagnosticSeverityWarning : Nat := 2

/-- The `computeKey` function (commands.ts lines 331-334): the identity of
a diagnostic is its range plus its code (the rule name). -/
def computeKey (diagnostic : Diagnostic) : String :=
  "[" ++ toString diagnostic.range.start.line ++ "," ++
    toString diagnostic.range.start.character ++ "," ++
    toString diagnostic.range.stop.line ++ "," ++
    toString diagnostic.range.stop.character ++ "]-" ++ diagnostic.code

/-- The `makeDiagnostic` function (language-server variant): message with
the rule name appended in parentheses when present (the empty string
models an absent rule name), severity error only when the rule's own
severity is error and the always-warnings setting is off. -/
def makeDiagnostic (alwaysShowRuleFailuresAsWarnings : Bool) (problem : RuleFailure) :
    Diagnostic :=
  let message :=
    if problem.ruleName ≠ "" then problem.failure ++ " (" ++ problem.ruleName ++ ")"
    else problem.failure
  let severity :=
    if ¬ alwaysShowRuleFailuresAsWarnings ∧ problem.ruleSeverity = "error" then
      diagnosticSeverityError
    else diagnosticSeverityWarning
  { severity := severity,
    message := message,
    range := { start := { line := problem.startPos.lineAndCharacter.line,
                          character := problem.startPos.lineAndCharacter.character },
               stop := { line := problem.endPos.lineAndCharacter.line,
                         character := problem.endPos.lineAndCharacter.character } },
    code := problem.ruleName,
    source := "tslint" }

/-- The `convertReplacementToAutoFix` function (commands.ts lines
223-230). -/
def convertReplacementToAutoFix (document : TextDocument) (repl : Replacement) :
    TSLintAutofixEdit :=
  { range := (positionAt document.text repl.start, positionAt document.text repl.stop),
    text := repl.text }

/-- The `createDisableRuleFix` function (commands.ts lines 232-252). -/
def createDisableRuleFix (problem : RuleFailure) (document : TextDocument) : AutoFix :=
  let pos : Pos := { character := 0, line := problem.startPos.lineAndCharacter.line }
  { label := "Disable rule \"" ++ problem.ruleName ++ "\" for this line",
    documentVersion := document.version,
    problem := problem,
    edits := [{ range := (pos, pos),
                text := "// tslint:disable-next-line:" ++ problem.ruleName ++ "\n" }] }

/-- Input of `createAutoFix`: either a fixer-produced edit (detected in
the source by its `range` property) or an engine fix. -/
inductive FixInput where
  | vsc (edit : TSLintAutofixEdit)
  | engine (fix : Fix)
deriving DecidableEq, Repr

/-- The `createAutoFix` function (commands.ts lines 190-221): one edit for
a fixer edit, converted replacements for the tslint 4 object and for the
tslint 5 single/array forms. -/
def createAutoFix (problem : RuleFailure) (document : TextDocument) (fix : FixInput) :
    AutoFix :=
  let edits :=
    match fix with
    | .vsc e => [e]
    | .engine (.withReplacements rs) => rs.map (convertReplacementToAutoFix document)
    | .engine (.single r) => [convertReplacementToAutoFix document r]
    | .engine (.multi rs) => rs.map (convertReplacementToAutoFix document)
  { label := "Fix: " ++ problem.failure,
    documentVersion := document.version,
    problem := problem,
    edits := edits }

/-- The `replacementsAreEmpty` function (commands.ts lines 336-346).  The
source is only called with a present fix; `none` maps to `false`. -/
def replacementsAreEmpty : Option Fix → Bool
  | some (.withReplacements rs) => rs.isEmpty
  | some (.multi rs) => rs.isEmpty
  | some (.single _) => false
  | none => false

/-- The `convertToServerPosition` function of the fixer. -/
def convertToServerPosition (position : RuleFailurePos) : Pos :=
  { character := position.lineAndCharacter.character,
    line := position.lineAndCharacter.line }

/-- The `convertProblemPositionsToRange` function of the fixer. -/
def convertProblemPositionsToRange (problem : RuleFailure) : Pos × Pos :=
  (convertToServerPosition problem.startPos, convertToServerPosition problem.endPos)

/-- The `quotemark` fix creator: flip the quote character found at the
start of the failure message and requote the contents. -/
def quoteFixCreator (problem : RuleFailure) (document : TextDocument) :
    Option TSLintAutofixEdit :=
  let wrongQuote := problem.failure.toList.headD (Char.ofNat 32)
  let fixedQuote := if wrongQuote = Char.ofNat 39 then Char.ofNat 34 else Char.ofNat 39
  let contents :=
    textSlice document.text (problem.startPos.position + 1) (problem.endPos.position - 1)
  some { range := convertProblemPositionsToRange problem,
         text := String.singleton fixedQuote ++ contents ++ String.singleton fixedQuote }

/-- The `whitespace` fix creator: only for the exact message "missing
whitespace"; prepend a space to the failing contents. -/
def whiteSpaceFixCreator (problem : RuleFailure) (document : TextDocument) :
    Option TSLintAutofixEdit :=
  if problem.failure = "missing whitespace" then
    let contents :=
      textSlice document.text problem.startPos.position problem.endPos.position
    some { range := convertProblemPositionsToRange problem, text := " " ++ contents }
  else none

/-- The `triple-equals` fix creator: only for the two exact messages. -/
def tripleEqualsFixCreator (problem : RuleFailure) (_document : TextDocument) :
    Option TSLintAutofixEdit :=
  if problem.failure = "== should be ===" then
    some { range := convertProblemPositionsToRange problem, text := "===" }
  else if problem.failure = "!= should be !==" then
    some { range := convertProblemPositionsToRange problem, text := "!==" }
  else none

/-- Case swap of the first non-whitespace character (`swapCase` inside the
`comment-format` creator). -/
def swapCase (contents : String) (toLower : Bool) : String :=
  match contents.toList.findIdx? (fun c => ¬ c.isWhitespace) with
  | none => contents
  | some i =>
    let cs := contents.toList
    let c := cs.getD i (Char.ofNat 32)
    let swapped := if toLower then c.toLower else c.toUpper
    String.mk (cs.take i ++ swapped :: cs.drop (i + 1))

/-- The `comment-format` fix creator: three exact messages are handled,
anything else yields no fix. -/
def commentFormatFixCreator (problem : RuleFailure) (document : TextDocument) :
    Option TSLintAutofixEdit :=
  let contents :=
    textSlice document.text problem.startPos.position problem.endPos.position
  if problem.failure = "comment must start with a space" then
    some { range := convertProblemPositionsToRange problem, text := " " ++ contents }
  else if problem.failure = "comment must start with lowercase letter" then
    some { range := convertProblemPositionsToRange problem, text := swapCase contents true }
  else if problem.failure = "comment must start with uppercase letter" then
    some { range := convertProblemPositionsToRange problem, text := swapCase contents false }
  else none

/-- The fixer's `fixes` table: fix creators keyed by RULE NAME (the
source stores them under `fixes['quotemark']` and so on). -/
def fixCreators (ruleName : String) :
    Option (RuleFailure → TextDocument → Option TSLintAutofixEdit) :=
  if ruleName = "quotemark" then some quoteFixCreator
  else if ruleName = "whitespace" then some whiteSpaceFixCreator
  else if ruleName = "triple-equals" then some tripleEqualsFixCreator
  else if ruleName = "comment-format" then some commentFormatFixCreator
  else none

/-- The `createVscFixForRuleFailure` function of the fixer: look the rule
name up in the table and run the creator; a creator returning the source's
`null` is `none` here. -/
def createVscFixForRuleFailure (problem : RuleFailure) (document : TextDocument) :
    Option TSLintAutofixEdit :=
  match fixCreators problem.ruleName with
  | some creator => creator problem document
  | none => none

/-- Association-list update with JavaScript object semantics: overwrite an
existing key in place, append a new key at the end. -/
def alistSet {β : Type} : List (String × β) → String → β → List (String × β)
  | [], k, v => [(k, v)]
  | (k0, v0) :: rest, k, v =>
    if k0 = k then (k0, v) :: rest else (k0, v0) :: alistSet rest k v

/-- Association-list lookup (JavaScript property read). -/
def alistLookup {β : Type} : List (String × β) → String → Option β
  | [], _ => none
  | (k0, v0) :: rest, k => if k0 = k then some v0 else alistLookup rest k

/-- Association-list removal (JavaScript `delete`). -/
def alistRemove {β : Type} (m : List (String × β)) (k : String) : List (String × β) :=
  m.filter fun p => p.1 ≠ k

/-- Per-document fix map: diagnostic key to recorded fix. -/
abbrev FixMap := List (String × AutoFix)

/-- The module-level stores of commands.ts (lines 30-31): `codeFixActions`
and `codeDisableRuleActions`, each keyed by document uri and then by
diagnostic key. -/
structure CodeActionStores where
  codeFixActions : List (String × FixMap)
  codeDisableRuleActions : List (String × FixMap)
deriving DecidableEq, Repr

/-- Stores with nothing recorded. -/
def emptyStores : CodeActionStores :=
  { codeFixActions := [], codeDisableRuleActions := [] }

/-- The fix computation of `recordCodeAction` (commands.ts lines 46-57):
a present, non-empty engine fix wins; otherwise the fixer fallback is
consulted; otherwise there is no fix. -/
def computedFix (document : TextDocument) (problem : RuleFailure) : Option AutoFix :=
  let engineFix : Option AutoFix :=
    match problem.fix with
    | some f =>
      if replacementsAreEmpty (some f) then none
      else some (createAutoFix problem document (.engine f))
    | none => none
  match engineFix with
  | some f => some f
  | none =>
    match createVscFixForRuleFailure problem document with
    | some vscFix => some (createAutoFix problem document (.vsc vscFix))
    | none => none

/-- The `recordCodeAction` function (commands.ts lines 38-68): always
record the disable-rule fix, then record the computed fix under the
diagnostic's key — or record nothing when no fix exists. -/
def recordCodeAction (stores : CodeActionStores) (document : TextDocument)
    (diagnostic : Diagnostic) (problem : RuleFailure) : CodeActionStores :=
  let documentDisableRuleFixes :=
    (alistLookup stores.codeDisableRuleActions document.uri).getD []
  let documentDisableRuleFixes :=
    alistSet documentDisableRuleFixes (computeKey diagnostic)
      (createDisableRuleFix problem document)
  let disableOuter :=
    alistSet stores.codeDisableRuleActions document.uri documentDisableRuleFixes
  let stores1 : CodeActionStores := { stores with codeDisableRuleActions := disableOuter }
  match computedFix document problem with
  | none => stores1
  | some fix =>
    let documentAutoFixes := (alistLookup stores1.codeFixActions document.uri).getD []
    let documentAutoFixes := alistSet documentAutoFixes (computeKey diagnostic) fix
    let fixOuter := alistSet stores1.codeFixActions document.uri documentAutoFixes
    { stores1 with codeFixActions := fixOuter }

/-- Key uniqueness of an association list: no key is bound twice. -/
def uniqKeys {β : Type} (m : List (String × β)) : Prop :=
  m.Pairwise fun p q => p.1 ≠ q.1

/-- Store invariant: both stores bind each document uri at most once and
each per-document map binds each diagnostic key at most once. -/
def storesWellFormed (s : CodeActionStores) : Prop :=
  uniqKeys s.codeFixActions ∧ uniqKeys s.codeDisableRuleActions ∧
  (∀ p ∈ s.codeFixActions, uniqKeys p.2) ∧
  (∀ p ∈ s.codeDisableRuleActions, uniqKeys p.2)

/-- Concrete document used by the fixer scenarios. -/
def fixerDoc : TextDocument :=
  { uri := "file:///f.ts", version := 1, languageId := "typescript", text := "a  b" }

/-- Concrete engine-fixless rule failure with the exact message "missing
whitespace" and the given rule name. -/
def wsProblem (rule : String) : RuleFailure :=
  { fileName := "f.ts", ruleName := rule, failure := "missing whitespace",
    ruleSeverity := "error", startPos := ⟨1, ⟨0, 1⟩⟩, endPos := ⟨2, ⟨0, 2⟩⟩,
    fix := none }

/-- The failure-processing loop of the language server's `doValidate`:
every filtered failure becomes a diagnostic, and `recordCodeAction` is
called for each one. -/
def processFailures (alwaysWarnings : Bool) (document : TextDocument)
    (stores : CodeActionStores) :
    List RuleFailure → List Diagnostic × CodeActionStores
  | [] => ([], stores)
  | problem :: rest =>
    let diagnostic := makeDiagnostic alwaysWarnings problem
    let result :=
      processFailures alwaysWarnings document
        (recordCodeAction stores document diagnostic problem) rest
    (diagnostic :: result.1, result.2)

/-- The `filterProblemsForDocument` function: keep only failures whose
(normalized) file name equals the (normalized) document path; the path
normalizer of the host platform is a parameter. -/
def filterProblemsForDocument (normalizePath : String → String) (documentPath : String)
    (failures : List RuleFailure) : List RuleFailure :=
  failures.filter fun each => normalizePath each.fileName == normalizePath documentPath

/-- A tslint configuration as the runner sees it: rule names (with a flag
recording the tslint-5 `Map` representation, which gates the
`no-unused-variable` removal) and the `linterOptions.exclude` globs. -/
structure LinterConfig where
  rules : List String
  jsRules : List String
  rulesAreMap : Bool
  jsRulesAreMap : Bool
  linterOptionsExclude : Option (List String)
deriving DecidableEq, Repr

/-- The runner's `Configuration` record. -/
structure Configuration where
  linterConfiguration : Option LinterConfig
  isDefaultLinterConfig : Bool
  path : Option String
deriving DecidableEq, Repr

/-- The runner's `ConfigCache`: a single most-recently-used slot. -/
structure ConfigCache where
  filePath : Option String
  configuration : Option Configuration
deriving DecidableEq, Repr

/-- State of a freshly constructed (or flushed) `ConfigCache`. -/
def emptyConfigCache : ConfigCache :=
  { filePath := none, configuration := none }

/-- The `ConfigCache.set` method. -/
def configCacheSet (_cache : ConfigCache) (filePath : String)
    (configuration : Configuration) : ConfigCache :=
  { filePath := some filePath, configuration := some configuration }

/-- The `ConfigCache.get` method: the stored configuration when the path
matches, otherwise nothing. -/
def configCacheGet (cache : ConfigCache) (forPath : String) : Option Configuration :=
  if some forPath = cache.filePath then cache.configuration else none

/-- The `ConfigCache.flush` method. -/
def configCacheFlush (_cache : ConfigCache) : ConfigCache :=
  { filePath := none, configuration := none }

/-- The engine's configuration-location result
(`IConfigurationLoadResult`): the removed-in-4.0.2 `error` attribute, the
`results` payload and the configuration `path`. -/
structure ConfigurationResult where
  error : Option String
  results : Option LinterConfig
  path : Option String
deriving DecidableEq, Repr

/-- The loaded tslint library surface the runner consults:
`Linter.findConfigurationPath` (possibly absent on old versions) and
`Linter.findConfiguration`, both taking the explicit config file name and
the file path. -/
structure LinterLibrary where
  findConfigurationPath : Option (Option String → String → Option String)
  findConfiguration : Option String → String → ConfigurationResult

/-- The `no-unused-variable` removal of `getConfiguration`: performed only
on the tslint-5 `Map` representation. -/
def stripNoUnusedVariable (cfg : LinterConfig) : LinterConfig :=
  { cfg with
    rules :=
      if cfg.rulesAreMap then cfg.rules.filter (fun r => r ≠ "no-unused-variable")
      else cfg.rules,
    jsRules :=
      if cfg.jsRulesAreMap then cfg.jsRules.filter (fun r => r ≠ "no-unused-variable")
      else cfg.jsRules }

/-- The `TsLintRunner.getConfiguration` method: cache hit fast path,
otherwise locate the configuration through the library (throwing its
`error` attribute when present), strip `no-unused-variable`, store the
record in the cache and return the cache's configuration. -/
def getConfiguration (library : LinterLibrary) (cache : ConfigCache)
    (filePath : String) (configFileName : Option String) :
    Except String (Option Configuration) × ConfigCache :=
  match configCacheGet cache filePath with
  | some config => (.ok (some config), cache)
  | none =>
    let isDefaultConfig :=
      match library.findConfigurationPath with
      | some findPath => (findPath configFileName filePath).isNone
      | none => false
    let configurationResult := library.findConfiguration configFileName filePath
    match configurationResult.error with
    | some err => (.error err, cache)
    | none =>
      let linterConfiguration := configurationResult.results.map stripNoUnusedVariable
      let configuration : Configuration :=
        { isDefaultLinterConfig := isDefaultConfig,
          linterConfiguration := linterConfiguration,
          path := configurationResult.path }
      let cache1 := configCacheSet cache filePath configuration
      (.ok cache1.configuration, cache1)

/-- The configuration record `getConfiguration` builds when the cache
misses: the library's findings with `no-unused-variable` stripped. -/
def freshConfiguration (library : LinterLibrary) (filePath : String)
    (configFileName : Option String) : Configuration :=
  { isDefaultLinterConfig :=
      match library.findConfigurationPath with
      | some findPath => (findPath configFileName filePath).isNone
      | none => false,
    linterConfiguration :=
      (library.findConfiguration configFileName filePath).results.map
        stripNoUnusedVariable,
    path := (library.findConfiguration configFileName filePath).path }

/-- The `console.warn` slot: either the host's original handler or the
runner's capturing handler. -/
inductive WarnSink where
  | original
  | capture
deriving DecidableEq, Repr

/-- Console state: the current `console.warn` binding and what the
original handler has printed. -/
structure ConsoleState where
  warn : WarnSink
  printed : List String
deriving DecidableEq, Repr

/-- One `console.warn(message)` call: the capturing handler records the
message in the runner's warnings and forwards it to the original handler;
the original handler prints it. -/
def emitWarn (console : ConsoleState) (warnings : List String) (message : String) :
    List String × ConsoleState :=
  match console.warn with
  | .original => (warnings, { console with printed := console.printed ++ [message] })
  | .capture =>
    (warnings ++ [message], { console with printed := console.printed ++ [message] })

/-- All `console.warn` calls the engine makes during one lint call. -/
def emitWarnAll (console : ConsoleState) (warnings : List String) :
    List String → List String × ConsoleState
  | [] => (warnings, console)
  | m :: rest =>
    let r := emitWarn console warnings m
    emitWarnAll r.2 r.1 rest

/-- A lint result (`tslint.LintResult`) restricted to the fields the
server reads. -/
structure LintResult where
  errorCount : Nat
  warningCount : Nat
  failures : List RuleFailure
  output : String
deriving DecidableEq, Repr

/-- The runner's `emptyLintResult`. -/
def emptyLintResult : LintResult :=
  { errorCount := 0, warningCount := 0, failures := [], output := "" }

/-- The runner's `RunResult`. -/
structure RunResult where
  lintResult : LintResult
  warnings : List String
  workspaceFolderPath : Option String
  configFilePath : Option String
deriving DecidableEq, Repr

/-- The runner's `emptyResult`. -/
def emptyRunResult : RunResult :=
  { lintResult := emptyLintResult, warnings := [],
    workspaceFolderPath := none, configFilePath := none }

/-- The runner's `RunConfiguration` restricted to the fields `doRun`
reads; the string-or-array `exclude` setting is flattened to a list of
patterns. -/
structure RunConfiguration where
  jsEnable : Bool
  configFile : Option String
  validateWithDefaultConfig : Option Bool
  ignoreDefinitionFiles : Bool
  exclude : List String
  workspaceFolderPath : Option String
deriving DecidableEq, Repr

/-- Behaviour of one engine lint call: its outcome (`getResult()` or the
thrown error, modelled by its message) and the messages it writes through
`console.warn` while running. -/
structure LintEngine where
  outcome : Except String LintResult
  warnMessages : List String

/-- The `getConfigurationFailureMessage` function (errors modelled by
their message string). -/
def getConfigurationFailureMessage (err : String) : String :=
  "vscode-tslint: Cannot read tslint configuration - '" ++ err ++ "'"

/-- String suffix test (`String.prototype.endsWith`), over the character
lists. -/
def strEndsWith (s t : String) : Bool :=
  List.isSuffixOf t.toList s.toList

/-- The runner's `fileIsExcluded`: definition files when configured, then
the exclude globs (`minimatch` is the `globMatch` parameter). -/
def fileIsExcluded (globMatch : String → String → Bool) (settings : RunConfiguration)
    (filePath : String) : Bool :=
  if settings.ignoreDefinitionFiles && strEndsWith filePath ".d.ts" then true
  else settings.exclude.any fun pattern => globMatch filePath pattern

/-- The runner's `isJsDocument`: a `.js`/`.jsx` path, case-insensitive
(the regular expression `\.jsx?$` with the `i` flag). -/
def isJsDocumentPath (filePath : String) : Bool :=
  let lower := String.mk (filePath.toList.map Char.toLower)
  strEndsWith lower ".js" || strEndsWith lower ".jsx"

/-- The `isExcludedFromLinterOptions` function. -/
def isExcludedFromLinterOptions (globMatch : String → String → Bool)
    (config : Option LinterConfig) (fileName : String) : Bool :=
  match config with
  | none => false
  | some c =>
    match c.linterOptionsExclude with
    | none => false
    | some patterns => patterns.any fun pattern => globMatch fileName pattern

/-- The `TsLintRunner.doRun` method: exclusion and configuration guards,
then the lint call with scoped `console.warn` interception.  The
`try`/`finally` around the lint call restores the sink on both the normal
and the exceptional exit; the exception itself is NOT caught here — an
engine error propagates to the caller as the `Except.error` result.
`process.chdir` is a file-system side effect outside the model. -/
def doRun (library : LinterLibrary) (engine : LintEngine)
    (globMatch : String → String → Bool) (cache : ConfigCache)
    (console : ConsoleState) (filePath : String)
    (configuration : RunConfiguration) (warnings : List String) :
    Except String RunResult × ConfigCache × ConsoleState :=
  if fileIsExcluded globMatch configuration filePath then
    (.ok emptyRunResult, cache, console)
  else
    match getConfiguration library cache filePath configuration.configFile with
    | (Except.error err, cache1) =>
      (.ok { lintResult := emptyLintResult,
             warnings := warnings ++ [getConfigurationFailureMessage err],
             workspaceFolderPath := none, configFilePath := none }, cache1, console)
    | (Except.ok none, cache1) => (.ok emptyRunResult, cache1, console)
    | (Except.ok (some linterConfiguration), cache1) =>
      if isJsDocumentPath filePath && !configuration.jsEnable then
        (.ok emptyRunResult, cache1, console)
      else if decide (configuration.validateWithDefaultConfig = some false) &&
          (cache1.configuration.map (fun c => c.isDefaultLinterConfig)).getD false then
        (.ok emptyRunResult, cache1, console)
      else if isExcludedFromLinterOptions globMatch
          linterConfiguration.linterConfiguration filePath then
        (.ok emptyRunResult, cache1, console)
      else
        let originalConsoleWarn := console.warn
        let console1 : ConsoleState := { console with warn := WarnSink.capture }
        let r := emitWarnAll console1 warnings engine.warnMessages
        let console2 : ConsoleState := { r.2 with warn := originalConsoleWarn }
        match engine.outcome with
        | .error e => (.error e, cache1, console2)
        | .ok result =>
          (.ok { lintResult := result, warnings := r.1,
                 workspaceFolderPath := configuration.workspaceFolderPath,
                 configFilePath := linterConfiguration.path }, cache1, console2)

/-- Settings of the language-server `doValidate` variant, restricted to
the fields it reads; the string-or-array `exclude` is flattened. -/
structure ServerSettings where
  jsEnable : Bool
  validateWithDefaultConfig : Option Bool
  configFile : Option String
  ignoreDefinitionFiles : Bool
  exclude : List String
  alwaysShowRuleFailuresAsWarnings : Bool
deriving DecidableEq, Repr

/-- The language server's `fileIsExcluded`: definition files are matched
with the `**/*.d.ts` glob, then the exclude globs. -/
def serverFileIsExcluded (globMatch : String → String → Bool)
    (settings : ServerSettings) (path : String) : Bool :=
  if settings.ignoreDefinitionFiles && globMatch path "**/*.d.ts" then true
  else settings.exclude.any fun pattern => globMatch path pattern

/-- The language server's `isJsDocument`: by language id. -/
def isJsDocument (document : TextDocument) : Bool :=
  document.languageId == "javascript" || document.languageId == "javascriptreact"

/-- The `tslint/status` notification states. -/
inductive Status where
  | ok
  | warn
  | error
deriving DecidableEq, Repr

/-- The `getErrorMessage` function (errors modelled by their message; the
stack trace is outside the model).  An absent file path prints as
JavaScript renders `undefined`. -/
def getErrorMessage (uriToFilePath : String → Option String) (err : String)
    (document : TextDocument) : String :=
  "vscode-tslint: '" ++ err ++ "' while validating: " ++
    ((uriToFilePath document.uri).getD "undefined")

/-- External collaborators of one `doValidate` call: the uri-to-path
conversion, the settings-cache outcome, `minimatch`, the awaited
`getConfiguration` outcome, the detected tslint version, the lint call's
outcome and `path.normalize`. -/
structure ValidateEnv where
  uriToFilePath : String → Option String
  settings : Option ServerSettings
  globMatch : String → String → Bool
  configOutcome : Except String (Option Configuration)
  isTsLint4 : Bool
  lintOutcome : Except String LintResult
  normalizePath : String → String

/-- Observable outcome of one `doValidate` call: the returned diagnostics,
the updated stores, the status notifications sent and the messages written
to the connection's console. -/
structure DoValidateResult where
  diagnostics : List Diagnostic
  stores : CodeActionStores
  statusNotifications : List Status
  infoMessages : List String
deriving DecidableEq, Repr

/-- The language server's `doValidate`: clear the document's recorded
fixes, run the guards, call the engine inside try/catch — an engine
exception is caught, reported to the console, signalled as an error
status, and the (empty) diagnostics collected so far are returned — then
turn the filtered failures into diagnostics and recorded fixes. -/
def doValidate (env : ValidateEnv) (document : TextDocument)
    (stores : CodeActionStores) : DoValidateResult :=
  let uri := document.uri
  let stores0 : CodeActionStores :=
    { codeFixActions := alistRemove stores.codeFixActions uri,
      codeDisableRuleActions := alistRemove stores.codeDisableRuleActions uri }
  match env.uriToFilePath uri with
  | none =>
    { diagnostics := [], stores := stores0, statusNotifications := [], infoMessages := [] }
  | some fsPath =>
    match env.settings with
    | none =>
      { diagnostics := [], stores := stores0, statusNotifications := [],
        infoMessages := [] }
    | some settings =>
      if serverFileIsExcluded env.globMatch settings fsPath then
        { diagnostics := [], stores := stores0, statusNotifications := [],
          infoMessages := [] }
      else
        match env.configOutcome with
        | .error err =>
          { diagnostics := [], stores := stores0,
            statusNotifications := [Status.error],
            infoMessages := [getConfigurationFailureMessage err] }
        | .ok none =>
          { diagnostics := [], stores := stores0, statusNotifications := [],
            infoMessages := [] }
        | .ok (some configuration) =>
          if isJsDocument document && !settings.jsEnable then
            { diagnostics := [], stores := stores0, statusNotifications := [],
              infoMessages := [] }
          else if decide (settings.validateWithDefaultConfig = some false) &&
              configuration.isDefaultLinterConfig then
            { diagnostics := [], stores := stores0, statusNotifications := [],
              infoMessages := [] }
          else if !env.isTsLint4 && isJsDocument document then
            { diagnostics := [], stores := stores0, statusNotifications := [],
              infoMessages := [] }
          else
            match env.lintOutcome with
            | .error err =>
              { diagnostics := [], stores := stores0,
                statusNotifications := [Status.error],
                infoMessages := [getErrorMessage env.uriToFilePath err document] }
            | .ok result =>
              let processed :=
                if decide (result.failures.length > 0) then
                  processFailures settings.alwaysShowRuleFailuresAsWarnings document
                    stores0
                    (filterProblemsForDocument env.normalizePath fsPath result.failures)
                else ([], stores0)
              { diagnostics := processed.1, stores := processed.2,
                statusNotifications := [Status.ok], infoMessages := [] }

/-- Concrete linter configuration for the runner scenarios. -/
def basicConfig : LinterConfig :=
  { rules := ["quotemark"], jsRules := [], rulesAreMap := false,
    jsRulesAreMap := false, linterOptionsExclude := none }

/-- Concrete library whose configuration lookup succeeds. -/
def okLibrary : LinterLibrary :=
  { findConfigurationPath := none,
    findConfiguration := fun _ _ =>
      { error := none, results := some basicConfig, path := some "/p/tslint.json" } }

/-- Concrete engine whose lint call throws. -/
def crashingEngine : LintEngine :=
  { outcome := .error "engine crash", warnMessages := [] }

/-- Glob matcher that matches nothing. -/
def noGlob : String → String → Bool := fun _ _ => false

/-- Concrete run configuration with no exclusions. -/
def basicRunConfiguration : RunConfiguration :=
  { jsEnable := false, configFile := none, validateWithDefaultConfig := none,
    ignoreDefinitionFiles := false, exclude := [], workspaceFolderPath := none }

/-- Console state before a lint call: the host's handler installed. -/
def freshConsole : ConsoleState :=
  { warn := WarnSink.original, printed := [] }

/-- Forward no-overlap relation checked by the greedy walks: the candidate
does not overlap the last accepted fix. -/
def noOv (a b : AutoFix) : Prop :=
  overlaps (some a) b = false

/-- Separation of two fixes: every edit of `a` ends strictly before every
edit of `b` starts.  This is exactly when the program's `overlaps`
predicate reports no overlap (see `overlaps_some_eq_false_iff`). -/
def sep (a b : AutoFix) : Prop :=
  ∀ ea ∈ a.edits, ∀ eb ∈ b.edits, posLt ea.range.2 eb.range.1 = true

/-- An edit range is well formed when its start is not after its end. -/
def wellFormedEdits (f : AutoFix) : Prop :=
  ∀ e ∈ f.edits, posLe e.range.1 e.range.2 = true

/-- Closed-interval intersection of two edit ranges: each starts no later
than the other ends.  Touching ranges count as intersecting, matching the
conservative overlap notion of the spec. -/
def rangesIntersect (r₁ r₂ : Pos × Pos) : Bool :=
  posLe r₁.1 r₂.2 && posLe r₂.1 r₁.2

/-- Two fixes intersect when any edit range of one intersects any edit
range of the other. -/
def fixesIntersect (a b : AutoFix) : Bool :=
  a.edits.any fun ea => b.edits.any fun eb => rangesIntersect ea.range eb.range

/-- A fix is well formed when it has at least one edit and each edit's
start is not after its end. -/
def wellFormedFix (f : AutoFix) : Prop :=
  f.edits ≠ [] ∧ wellFormedEdits f

/-- Concrete single-edit fix used by the boundary and witness scenarios:
one edit spanning the given start and end position. -/
def scenarioFix (s e : Pos) : AutoFix :=
  { label := "Fix: m", documentVersion := 1,
    problem := { fileName := "f.ts", ruleName := "r", failure := "m",
                 ruleSeverity := "error", startPos := ⟨0, s⟩, endPos := ⟨0, e⟩,
                 fix := none },
    edits := [{ range := (s, e), text := "x" }] }

theorem posLt_iff (a b : Pos) :
    posLt a b = true ↔ a.line < b.line ∨ (a.line = b.line ∧ a.character < b.character) := by
  simp [posLt]

theorem posLe_iff (a b : Pos) :
    posLe a b = true ↔ a.line < b.line ∨ (a.line = b.line ∧ a.character ≤ b.character) := by
  simp [posLe]

theorem fixSortCompare_eq_zero (a b : AutoFix) : fixSortCompare a b = 0 := rfl

theorem fixLe_true (a b : AutoFix) : fixLe a b = true := rfl

theorem fixLe_total (a b : AutoFix) : fixLe a b = true ∨ fixLe b a = true :=
  Or.inl (fixLe_true a b)

theorem fixLe_trans {a b c : AutoFix} (_h₁ : fixLe a b = true) (_h₂ : fixLe b c = true) :
    fixLe a c = true :=
  fixLe_true a c

instance : IsTotal AutoFix fixLeP :=
  ⟨fun a b => fixLe_total a b⟩

instance : IsTrans AutoFix fixLeP :=
  ⟨fun _ _ _ h₁ h₂ => fixLe_trans h₁ h₂⟩

theorem sortFixes_eq_self (l : List AutoFix) : sortFixes l = l := by
  apply List.Sorted.insertionSort_eq
  induction l with
  | nil => exact List.Pairwise.nil
  | cons a t ih => exact List.Pairwise.cons (fun _ _ => fixLe_true a _) ih

theorem posLt_eq_false_iff (a b : Pos) :
    posLt a b = false ↔ ¬ (a.line < b.line ∨ (a.line = b.line ∧ a.character < b.character)) := by
  simp only [Bool.eq_false_iff, ne_eq, posLt_iff]

theorem posLe_eq_false_iff (a b : Pos) :
    posLe a b = false ↔ ¬ (a.line < b.line ∨ (a.line = b.line ∧ a.character ≤ b.character)) := by
  simp only [Bool.eq_false_iff, ne_eq, posLe_iff]

theorem getLastEdit_append (l : List AutoFix) (a : AutoFix) :
    getLastEdit (l ++ [a]) = some a := by
  simp [getLastEdit]

theorem walk_decomp (l : List AutoFix) :
    ∀ acc, ∃ sub, nonOverlapLoop acc l = acc ++ sub ∧ sub.Sublist l := by
  induction l with
  | nil => exact fun acc => ⟨[], by simp [nonOverlapLoop]⟩
  | cons f rest ih =>
    intro acc
    by_cases h : overlaps (getLastEdit acc) f = true
    · obtain ⟨sub, he, hs⟩ := ih acc
      exact ⟨sub, by simp [nonOverlapLoop, h, he], hs.cons f⟩
    · obtain ⟨sub, he, hs⟩ := ih (acc ++ [f])
      refine ⟨f :: sub, ?_, hs.cons₂ f⟩
      simp only [nonOverlapLoop, h, if_false, Bool.not_eq_true] at *
      rw [he]
      simp

theorem walk_chain (l : List AutoFix) :
    ∀ acc, acc.Chain' noOv → (nonOverlapLoop acc l).Chain' noOv := by
  induction l with
  | nil => exact fun acc h => h
  | cons f rest ih =>
    intro acc hacc
    by_cases h : overlaps (getLastEdit acc) f = true
    · simpa [nonOverlapLoop, h] using ih acc hacc
    · have h' : overlaps (getLastEdit acc) f = false := by
        simpa using h
      have hnew : (acc ++ [f]).Chain' noOv := by
        rw [List.chain'_append]
        refine ⟨hacc, List.chain'_singleton f, ?_⟩
        intro x hx y hy
        simp only [List.head?_cons, Option.mem_def, Option.some.injEq] at hy
        subst hy
        show overlaps (some x) f = false
        have : getLastEdit acc = some x := hx
        rwa [this] at h'
      simpa [nonOverlapLoop, h] using ih (acc ++ [f]) hnew

theorem walk_all (l : List AutoFix) :
    ∀ acc, l.Chain' noOv →
      (∀ a h, getLastEdit acc = some a → l.head? = some h → noOv a h) →
      nonOverlapLoop acc l = acc ++ l := by
  induction l with
  | nil => intro acc _ _; simp [nonOverlapLoop]
  | cons f rest ih =>
    intro acc hchain hcond
    have hno : overlaps (getLastEdit acc) f = false := by
      cases hacc : getLastEdit acc with
      | none => rfl
      | some a => exact hcond a f hacc rfl
    have hrest : rest.Chain' noOv := hchain.tail
    have hhead : ∀ b ∈ rest.head?, noOv f b := (List.chain'_cons'.mp hchain).1
    have hcond' : ∀ a h, getLastEdit (acc ++ [f]) = some a → rest.head? = some h → noOv a h := by
      intro a h ha hh
      rw [getLastEdit_append] at ha
      cases ha
      exact hhead h hh
    have := ih (acc ++ [f]) hrest hcond'
    simp only [nonOverlapLoop, hno, if_false, Bool.false_eq_true] at *
    rw [this]
    simp

theorem editPairOverlaps_eq_false_iff (last next : TSLintAutofixEdit) :
    editPairOverlaps last next = false ↔ posLt last.range.2 next.range.1 = true := by
  unfold editPairOverlaps
  rw [posLt_iff]
  split_ifs with h1 h2
  · simp only [decide_eq_true_eq] at h1
    constructor
    · intro h
      exact h.elim
    · intro h
      exact absurd h (by omega)
  · simp only [decide_eq_true_eq] at h2
    constructor
    · intro _
      omega
    · intro _
      rfl
  · simp only [decide_eq_true_eq, not_lt] at h1 h2
    rw [decide_eq_false_iff_not, not_le]
    constructor
    · intro h
      omega
    · intro h
      omega

theorem overlaps_some_eq_false_iff (a b : AutoFix) :
    overlaps (some a) b = false ↔ sep a b := by
  unfold overlaps sep
  simp only [List.any_eq_false, Bool.not_eq_true]
  constructor
  · intro h ea hea eb heb
    exact (editPairOverlaps_eq_false_iff ea eb).mp (h ea hea eb heb)
  · intro h ea hea eb heb
    exact (editPairOverlaps_eq_false_iff ea eb).mpr (h ea hea eb heb)

/-- Claim C1 theorem.  The claim says `getAllNonOverlappingFixes` returns
every fix of a pairwise non-overlapping candidate list, in ascending
position order.  The code does not: the comparator applies `<` and `>` to
`Position` objects, which is always false in JavaScript, so it returns 0
for every pair (`fixSortCompare_eq_zero`) and the stable sort never
reorders.  At the failing input — the two disjoint well-formed fixes
`[7,0]-[7,0]` and `[1,0]-[6,0]`, given in descending position order —
`sortFixes` leaves the list as is, the greedy walk then finds that the
later fix `[1,0]-[6,0]` "overlaps" the already-accepted `[7,0]-[7,0]`
(its end does not lie strictly before that fix's start), and the batch
keeps only the first fix: a non-overlapping fix is dropped and the result
is not ascending. -/
theorem reconcile_drops_fix_on_descending_input :
    fixSortCompare (scenarioFix ⟨7, 0⟩ ⟨7, 0⟩) (scenarioFix ⟨1, 0⟩ ⟨6, 0⟩) = 0 ∧
    sortFixes [scenarioFix ⟨7, 0⟩ ⟨7, 0⟩, scenarioFix ⟨1, 0⟩ ⟨6, 0⟩]
      = [scenarioFix ⟨7, 0⟩ ⟨7, 0⟩, scenarioFix ⟨1, 0⟩ ⟨6, 0⟩] ∧
    sep (scenarioFix ⟨1, 0⟩ ⟨6, 0⟩) (scenarioFix ⟨7, 0⟩ ⟨7, 0⟩) ∧
    getAllNonOverlappingFixes
        [scenarioFix ⟨7, 0⟩ ⟨7, 0⟩, scenarioFix ⟨1, 0⟩ ⟨6, 0⟩]
      = [scenarioFix ⟨7, 0⟩ ⟨7, 0⟩] := by
  refine ⟨rfl, by decide, ?_, by decide⟩
  intro ea hea eb heb
  fin_cases hea
  fin_cases heb
  decide

/-- Claim C4 theorem.  Reconciliation is deterministic — the embedded
`sortFixes` plus `getAllNonOverlappingFixes` pipeline is a pure function
of its input list, so two runs on the identical input agree — and it is
idempotent: feeding its own output back in returns that output
unchanged. -/
theorem reconcile_deterministic_idempotent (l : List AutoFix) :
    getAllNonOverlappingFixes l = getAllNonOverlappingFixes l ∧
    getAllNonOverlappingFixes (getAllNonOverlappingFixes l) =
      getAllNonOverlappingFixes l := by
  refine ⟨rfl, ?_⟩
  obtain ⟨sub, he, hsub⟩ := walk_decomp (sortFixes l) []
  have hout : getAllNonOverlappingFixes l = sub := by
    unfold getAllNonOverlappingFixes
    simpa using he
  have hsorted : sub.Pairwise fixLeP :=
    List.Pairwise.sublist hsub (List.sorted_insertionSort fixLeP l)
  have hchain : sub.Chain' noOv := by
    have h0 : (nonOverlapLoop [] (sortFixes l)).Chain' noOv :=
      walk_chain (sortFixes l) [] List.chain'_nil
    rw [he] at h0
    simpa using h0
  rw [hout]
  unfold getAllNonOverlappingFixes
  have hss : sortFixes sub = sub := List.Sorted.insertionSort_eq hsorted
  rw [hss]
  have := walk_all sub [] hchain (by intro a h ha _; simp [getLastEdit] at ha)
  simpa using this

/-- Claim C9 theorem.  The overlap test against an empty accepted list
returns `false`, so the first fix in sorted order is always accepted: a
non-empty input list always produces a non-empty batch. -/
theorem nonempty_input_gives_nonempty_batch (f : AutoFix) (l : List AutoFix) :
    overlaps none f = false ∧ (l ≠ [] → getAllNonOverlappingFixes l ≠ []) := by
  refine ⟨rfl, fun hne => ?_⟩
  unfold getAllNonOverlappingFixes
  have hperm : (sortFixes l).Perm l := List.perm_insertionSort fixLeP l
  cases hs : sortFixes l with
  | nil =>
    rw [hs] at hperm
    exact absurd hperm.symm.eq_nil hne
  | cons f0 rest =>
    have h0 : overlaps (getLastEdit ([] : List AutoFix)) f0 = false := rfl
    obtain ⟨sub, he, _⟩ := walk_decomp rest [f0]
    simp only [nonOverlapLoop, h0, Bool.false_eq_true, if_false, List.nil_append]
    rw [he]
    simp

/-- Witness for C9: a one-element list produces a non-empty batch. -/
theorem nonempty_input_gives_nonempty_batch_witness :
    getAllNonOverlappingFixes
      [{ label := "a", documentVersion := 1,
         problem := { fileName := "f.ts", ruleName := "r", failure := "m",
                      ruleSeverity := "error", startPos := ⟨0, ⟨1, 0⟩⟩,
                      endPos := ⟨0, ⟨6, 0⟩⟩, fix := none },
         edits := [{ range := (⟨1, 0⟩, ⟨6, 0⟩), text := "x" }] }] ≠ [] :=
  (nonempty_input_gives_nonempty_batch
    { label := "a", documentVersion := 1,
      problem := { fileName := "f.ts", ruleName := "r", failure := "m",
                   ruleSeverity := "error", startPos := ⟨0, ⟨1, 0⟩⟩,
                   endPos := ⟨0, ⟨6, 0⟩⟩, fix := none },
      edits := [{ range := (⟨1, 0⟩, ⟨6, 0⟩), text := "x" }] } _).2 (by decide)

theorem sep_not_intersect {a b : AutoFix} (h : sep a b) : fixesIntersect a b = false := by
  unfold fixesIntersect
  simp only [List.any_eq_false, Bool.not_eq_true]
  intro ea hea eb heb
  have hlt := h ea hea eb heb
  unfold rangesIntersect
  have h2 : posLe eb.range.1 ea.range.2 = false := by
    rw [posLt_iff] at hlt
    rw [posLe_eq_false_iff]
    omega
  rw [h2, Bool.and_false]

theorem sep_trans_mid {a b c : AutoFix} (hb : wellFormedFix b)
    (h₁ : sep a b) (h₂ : sep b c) : sep a c := by
  intro ea hea eb heb
  obtain ⟨hne, hwf⟩ := hb
  obtain ⟨em, hem⟩ := List.exists_mem_of_ne_nil b.edits hne
  have g1 := h₁ ea hea em hem
  have g2 := hwf em hem
  have g3 := h₂ em hem eb heb
  rw [posLt_iff] at g1 g3 ⊢
  rw [posLe_iff] at g2
  omega

theorem chain_sep_head {l : List AutoFix} :
    ∀ {x : AutoFix}, (∀ y ∈ l, wellFormedFix y) → List.Chain sep x l →
      ∀ y ∈ l, sep x y := by
  induction l with
  | nil => intro x _ _ y hy; cases hy
  | cons z rest ih =>
    intro x hwf hch y hy
    rcases List.chain_cons.mp hch with ⟨hxz, hrest⟩
    rcases List.mem_cons.mp hy with rfl | hy
    · exact hxz
    · have hzy := ih (fun u hu => hwf u (List.mem_cons_of_mem _ hu)) hrest y hy
      exact sep_trans_mid (hwf z (List.mem_cons_self z rest)) hxz hzy

theorem chain'_sep_pairwise :
    ∀ {l : List AutoFix}, (∀ x ∈ l, wellFormedFix x) → l.Chain' sep →
      l.Pairwise sep := by
  intro l
  induction l with
  | nil => intro _ _; exact List.Pairwise.nil
  | cons x rest ih =>
    intro hwf hch
    have hc : List.Chain sep x rest := hch
    refine List.Pairwise.cons ?_ (ih (fun u hu => hwf u (List.mem_cons_of_mem _ hu)) hch.tail)
    exact chain_sep_head (fun u hu => hwf u (List.mem_cons_of_mem _ hu)) hc

/-- Chain of forward non-overlaps gives a chain of separations. -/
theorem chain'_noOv_sep {l : List AutoFix} (h : l.Chain' noOv) : l.Chain' sep :=
  List.Chain'.imp (fun a b hab => (overlaps_some_eq_false_iff a b).mp hab) h

/-- Any batch built by a greedy no-overlap walk over well-formed members
is pairwise non-intersecting. -/
theorem chain'_noOv_not_intersect {l : List AutoFix}
    (hwf : ∀ x ∈ l, wellFormedFix x) (h : l.Chain' noOv) :
    l.Pairwise fun a b => fixesIntersect a b = false :=
  (chain'_sep_pairwise hwf (chain'_noOv_sep h)).imp fun hs => sep_not_intersect hs

theorem onCodeActionLoop_snd (ruleId : String) (l : List AutoFix) :
    ∀ same all, (onCodeActionLoop ruleId same all l).2 = nonOverlapLoop all l := by
  induction l with
  | nil => intro same all; rfl
  | cons f rest ih =>
    intro same all
    by_cases h : overlaps (getLastEdit all) f = true <;>
    simp [onCodeActionLoop, nonOverlapLoop, h, ih]

theorem onCodeActionLoop_fst_decomp (ruleId : String) (l : List AutoFix) :
    ∀ same all, ∃ sub, (onCodeActionLoop ruleId same all l).1 = same ++ sub ∧
      sub.Sublist l := by
  induction l with
  | nil => exact fun same all => ⟨[], by simp [onCodeActionLoop]⟩
  | cons f rest ih =>
    intro same all
    by_cases h : (f.problem.ruleName == ruleId && !overlaps (getLastEdit same) f) = true
    · obtain ⟨sub, he, hs⟩ := ih (same ++ [f])
        (if !overlaps (getLastEdit all) f then all ++ [f] else all)
      refine ⟨f :: sub, ?_, hs.cons₂ f⟩
      simp only [onCodeActionLoop]
      rw [if_pos h, he]
      simp
    · obtain ⟨sub, he, hs⟩ := ih same
        (if !overlaps (getLastEdit all) f then all ++ [f] else all)
      refine ⟨sub, ?_, hs.cons f⟩
      simp only [onCodeActionLoop]
      rw [if_neg h]
      exact he

theorem onCodeActionLoop_fst_chain (ruleId : String) (l : List AutoFix) :
    ∀ same all, same.Chain' noOv → (onCodeActionLoop ruleId same all l).1.Chain' noOv := by
  induction l with
  | nil => intro same all h; exact h
  | cons f rest ih =>
    intro same all hsame
    by_cases h : (f.problem.ruleName == ruleId && !overlaps (getLastEdit same) f) = true
    · have hno : overlaps (getLastEdit same) f = false := by
        have h' := h
        simp only [Bool.and_eq_true] at h'
        simpa using h'.2
      have hnew : (same ++ [f]).Chain' noOv := by
        rw [List.chain'_append]
        refine ⟨hsame, List.chain'_singleton f, ?_⟩
        intro x hx y hy
        simp only [List.head?_cons, Option.mem_def, Option.some.injEq] at hy
        subst hy
        show overlaps (some x) f = false
        have hgx : getLastEdit same = some x := hx
        rwa [hgx] at hno
      simp only [onCodeActionLoop]
      rw [if_pos h]
      exact ih (same ++ [f]) (if !overlaps (getLastEdit all) f then all ++ [f] else all) hnew
    · simp only [onCodeActionLoop]
      rw [if_neg h]
      exact ih same (if !overlaps (getLastEdit all) f then all ++ [f] else all) hsame

/-- Claim C2 theorem.  For any input list of well-formed candidate fixes,
every batch the reconciliation produces — the "all" batch of
`getAllNonOverlappingFixes`, and both the same-rule and the "all" batches
of the `onCodeAction` walk — is pairwise non-intersecting: whenever two
fixes have intersecting edit ranges, at most one of the two appears in any
single batch. -/
theorem batches_never_contain_intersecting_fixes (ruleId : String) (l : List AutoFix)
    (hwf : ∀ f ∈ l, wellFormedFix f) :
    (getAllNonOverlappingFixes l).Pairwise (fun a b => fixesIntersect a b = false) ∧
    (onCodeActionWalk ruleId l).1.Pairwise (fun a b => fixesIntersect a b = false) ∧
    (onCodeActionWalk ruleId l).2.Pairwise (fun a b => fixesIntersect a b = false) := by
  have hwfs : ∀ f ∈ sortFixes l, wellFormedFix f := by
    intro f hf
    exact hwf f ((List.perm_insertionSort fixLeP l).subset hf)
  have hall : (getAllNonOverlappingFixes l).Pairwise
      fun a b => fixesIntersect a b = false := by
    obtain ⟨sub, he, hsub⟩ := walk_decomp (sortFixes l) []
    have hout : getAllNonOverlappingFixes l = sub := by
      unfold getAllNonOverlappingFixes
      simpa using he
    have hchain : sub.Chain' noOv := by
      have h0 := walk_chain (sortFixes l) [] List.chain'_nil
      rw [he] at h0
      simpa using h0
    rw [hout]
    exact chain'_noOv_not_intersect (fun x hx => hwfs x (hsub.subset hx)) hchain
  refine ⟨hall, ?_, ?_⟩
  · obtain ⟨sub, he, hsub⟩ := onCodeActionLoop_fst_decomp ruleId (sortFixes l) [] []
    have hchain := onCodeActionLoop_fst_chain ruleId (sortFixes l) [] [] List.chain'_nil
    unfold onCodeActionWalk
    rw [he] at hchain ⊢
    simp only [List.nil_append] at *
    exact chain'_noOv_not_intersect (fun x hx => hwfs x (hsub.subset hx)) hchain
  · unfold onCodeActionWalk
    rw [onCodeActionLoop_snd]
    obtain ⟨sub, he, hsub⟩ := walk_decomp (sortFixes l) []
    have hchain : sub.Chain' noOv := by
      have h0 := walk_chain (sortFixes l) [] List.chain'_nil
      rw [he] at h0
      simpa using h0
    rw [he]
    simp only [List.nil_append]
    exact chain'_noOv_not_intersect (fun x hx => hwfs x (hsub.subset hx)) hchain

/-- Witness for C2: a concrete list with two intersecting fixes keeps only
one of them in each produced batch. -/
theorem batches_never_contain_intersecting_fixes_witness :
    (getAllNonOverlappingFixes [scenarioFix ⟨1, 0⟩ ⟨6, 0⟩, scenarioFix ⟨2, 0⟩ ⟨2, 5⟩]).Pairwise
      (fun a b => fixesIntersect a b = false) ∧
    (onCodeActionWalk "r" [scenarioFix ⟨1, 0⟩ ⟨6, 0⟩,
        scenarioFix ⟨2, 0⟩ ⟨2, 5⟩]).1.Pairwise
      (fun a b => fixesIntersect a b = false) ∧
    (onCodeActionWalk "r" [scenarioFix ⟨1, 0⟩ ⟨6, 0⟩,
        scenarioFix ⟨2, 0⟩ ⟨2, 5⟩]).2.Pairwise
      (fun a b => fixesIntersect a b = false) :=
  batches_never_contain_intersecting_fixes "r" _ (by
    intro f hf
    fin_cases hf <;> exact ⟨by decide, by intro e he; fin_cases he; decide⟩)

/-- Counterexample to claim C3 as stated.  The claim says the fixes
`[line1,col0]-[line6,col0]` and `[line6,col1]-[line6,col1]` overlap so
only the first is kept; in the code `overlaps` compares the end character
`0` against the start character `1` on line 6, `0 ≥ 1` fails, so the fixes
do not overlap and both are kept in the "all" batch. -/
theorem boundary_overlap_counterexample :
    overlaps (some (scenarioFix ⟨1, 0⟩ ⟨6, 0⟩)) (scenarioFix ⟨6, 1⟩ ⟨6, 1⟩) = false ∧
    getAllNonOverlappingFixes [scenarioFix ⟨1, 0⟩ ⟨6, 0⟩, scenarioFix ⟨6, 1⟩ ⟨6, 1⟩]
      = [scenarioFix ⟨1, 0⟩ ⟨6, 0⟩, scenarioFix ⟨6, 1⟩ ⟨6, 1⟩] := by
  constructor <;> decide

/-- Claim C3 theorem (amended).  Boundary behaviour of the overlap
predicate: two fixes touching the exact same zero-width position overlap;
`[1,0]-[6,0]` and `[7,0]-[7,0]` are non-overlapping and both are kept;
`[1,0]-[6,0]` and `[6,1]-[6,1]` are also non-overlapping (end character 0
is strictly before start character 1 on line 6) and both are kept, whereas
a second fix starting at `[6,0]` — where end of first ≥ start of second on
the same line — overlaps, and only the first is kept. -/
theorem boundary_overlap_behaviour :
    (∀ p : Pos, overlaps (some (scenarioFix p p)) (scenarioFix p p) = true) ∧
    getAllNonOverlappingFixes [scenarioFix ⟨1, 0⟩ ⟨6, 0⟩, scenarioFix ⟨7, 0⟩ ⟨7, 0⟩]
      = [scenarioFix ⟨1, 0⟩ ⟨6, 0⟩, scenarioFix ⟨7, 0⟩ ⟨7, 0⟩] ∧
    getAllNonOverlappingFixes [scenarioFix ⟨1, 0⟩ ⟨6, 0⟩, scenarioFix ⟨6, 1⟩ ⟨6, 1⟩]
      = [scenarioFix ⟨1, 0⟩ ⟨6, 0⟩, scenarioFix ⟨6, 1⟩ ⟨6, 1⟩] ∧
    overlaps (some (scenarioFix ⟨1, 0⟩ ⟨6, 0⟩)) (scenarioFix ⟨6, 0⟩ ⟨6, 0⟩) = true ∧
    getAllNonOverlappingFixes [scenarioFix ⟨1, 0⟩ ⟨6, 0⟩, scenarioFix ⟨6, 0⟩ ⟨6, 0⟩]
      = [scenarioFix ⟨1, 0⟩ ⟨6, 0⟩] := by
  refine ⟨?_, by decide, by decide, by decide, by decide⟩
  intro p
  simp only [scenarioFix, overlaps, List.any_cons, List.any_nil, Bool.or_false]
  unfold editPairOverlaps
  simp

theorem alistSet_mem {β : Type} {m : List (String × β)} {k : String} {v : β} :
    ∀ q ∈ alistSet m k v, q ∈ m ∨ q = (k, v) := by
  induction m with
  | nil =>
    intro q hq
    simp only [alistSet, List.mem_singleton] at hq
    exact Or.inr hq
  | cons p rest ih =>
    obtain ⟨k0, v0⟩ := p
    intro q hq
    by_cases h : k0 = k
    · rw [alistSet, if_pos h] at hq
      rcases List.mem_cons.mp hq with rfl | hq
      · exact Or.inr (by rw [h])
      · exact Or.inl (List.mem_cons_of_mem _ hq)
    · rw [alistSet, if_neg h] at hq
      rcases List.mem_cons.mp hq with rfl | hq
      · exact Or.inl (List.mem_cons_self _ _)
      · rcases ih q hq with hin | rfl
        · exact Or.inl (List.mem_cons_of_mem _ hin)
        · exact Or.inr rfl

theorem uniqKeys_alistSet {β : Type} {m : List (String × β)} (k : String) (v : β)
    (h : uniqKeys m) : uniqKeys (alistSet m k v) := by
  induction m with
  | nil =>
    unfold alistSet uniqKeys
    exact List.pairwise_singleton _ _
  | cons p rest ih =>
    obtain ⟨k0, v0⟩ := p
    rcases List.pairwise_cons.mp h with ⟨hhead, htail⟩
    by_cases hk : k0 = k
    · unfold alistSet
      rw [if_pos hk]
      exact List.pairwise_cons.mpr ⟨fun q hq => hhead q hq, htail⟩
    · unfold alistSet
      rw [if_neg hk]
      refine List.pairwise_cons.mpr ⟨?_, ih htail⟩
      intro q hq
      rcases alistSet_mem q hq with hin | rfl
      · exact hhead q hin
      · exact hk

theorem alistLookup_set_self {β : Type} (m : List (String × β)) (k : String) (v : β) :
    alistLookup (alistSet m k v) k = some v := by
  induction m with
  | nil => simp [alistSet, alistLookup]
  | cons p rest ih =>
    obtain ⟨k0, v0⟩ := p
    by_cases h : k0 = k <;> simp [alistSet, alistLookup, h, ih]

theorem alistLookup_mem {β : Type} {m : List (String × β)} {k : String} {v : β}
    (h : alistLookup m k = some v) : (k, v) ∈ m := by
  induction m with
  | nil => simp [alistLookup] at h
  | cons p rest ih =>
    obtain ⟨k0, v0⟩ := p
    by_cases hk : k0 = k
    · rw [alistLookup, if_pos hk] at h
      cases h
      rw [← hk]
      exact List.mem_cons_self _ _
    · rw [alistLookup, if_neg hk] at h
      exact List.mem_cons_of_mem _ (ih h)

/-- Well-formedness of one two-level store update: overwrite the entry of
`uri` with its per-document map updated at `key`. -/
theorem twoLevel_wf {outer : List (String × FixMap)} (uri key : String) (fx : AutoFix)
    (h1 : uniqKeys outer) (h2 : ∀ p ∈ outer, uniqKeys p.2) :
    uniqKeys (alistSet outer uri (alistSet ((alistLookup outer uri).getD []) key fx)) ∧
    ∀ p ∈ alistSet outer uri (alistSet ((alistLookup outer uri).getD []) key fx),
      uniqKeys p.2 := by
  refine ⟨uniqKeys_alistSet uri _ h1, ?_⟩
  intro p hp
  rcases alistSet_mem p hp with hin | rfl
  · exact h2 p hin
  · have hinner : uniqKeys ((alistLookup outer uri).getD []) := by
      cases hl : alistLookup outer uri with
      | none => exact List.Pairwise.nil
      | some m0 => exact h2 (uri, m0) (alistLookup_mem hl)
    exact uniqKeys_alistSet key fx hinner

/-- Claim C10 theorem.  The diagnostic key is computed only from the
diagnostic's range and rule code; `recordCodeAction` preserves the
at-most-one-fix-per-key invariant of the per-document stores; and when two
failures produce diagnostics with the same key and the later failure has a
recordable fix, the later `recordCodeAction` call overwrites the earlier
fix: the store afterwards maps that key to the later fix. -/
theorem fix_store_key_unique_and_overwrites :
    (∀ d₁ d₂ : Diagnostic, d₁.range = d₂.range → d₁.code = d₂.code →
      computeKey d₁ = computeKey d₂) ∧
    (∀ (stores : CodeActionStores) (document : TextDocument) (diagnostic : Diagnostic)
        (problem : RuleFailure), storesWellFormed stores →
      storesWellFormed (recordCodeAction stores document diagnostic problem)) ∧
    (∀ (stores : CodeActionStores) (document : TextDocument) (d₁ d₂ : Diagnostic)
        (p₁ p₂ : RuleFailure), computeKey d₁ = computeKey d₂ →
      computedFix document p₂ ≠ none →
      alistLookup
        ((alistLookup
            (recordCodeAction (recordCodeAction stores document d₁ p₁)
              document d₂ p₂).codeFixActions document.uri).getD [])
        (computeKey d₂) = computedFix document p₂) := by
  refine ⟨?_, ?_, ?_⟩
  · intro d₁ d₂ hr hc
    unfold computeKey
    rw [hr, hc]
  · intro stores document diagnostic problem hwf
    obtain ⟨hfix, hdis, hfixIn, hdisIn⟩ := hwf
    unfold recordCodeAction
    cases hcf : computedFix document problem with
    | none =>
      simp only
      obtain ⟨d1, d2⟩ := twoLevel_wf document.uri (computeKey diagnostic)
        (createDisableRuleFix problem document) hdis hdisIn
      exact ⟨hfix, d1, hfixIn, d2⟩
    | some fx =>
      simp only
      obtain ⟨d1, d2⟩ := twoLevel_wf document.uri (computeKey diagnostic)
        (createDisableRuleFix problem document) hdis hdisIn
      obtain ⟨f1, f2⟩ := twoLevel_wf document.uri (computeKey diagnostic) fx hfix hfixIn
      exact ⟨f1, d1, f2, d2⟩
  · intro stores document d₁ d₂ p₁ p₂ _ hne
    cases hcf : computedFix document p₂ with
    | none => exact absurd hcf hne
    | some fx =>
      conv =>
        lhs
        rw [recordCodeAction]
      simp only [hcf]
      rw [alistLookup_set_self]
      simp only [Option.getD_some]
      rw [alistLookup_set_self]

/-- Witness for C10: the invariant holds for the empty stores and is kept
by one concrete recording, and a second recording under the same key
overwrites the first. -/
theorem fix_store_key_unique_and_overwrites_witness :
    storesWellFormed (recordCodeAction emptyStores fixerDoc
      (makeDiagnostic false (wsProblem "whitespace")) (wsProblem "whitespace")) ∧
    alistLookup
      ((alistLookup
          (recordCodeAction
            (recordCodeAction emptyStores fixerDoc
              (makeDiagnostic false (wsProblem "whitespace")) (wsProblem "whitespace"))
            fixerDoc (makeDiagnostic false (wsProblem "whitespace"))
            (wsProblem "whitespace")).codeFixActions fixerDoc.uri).getD [])
      (computeKey (makeDiagnostic false (wsProblem "whitespace"))) =
      computedFix fixerDoc (wsProblem "whitespace") :=
  ⟨fix_store_key_unique_and_overwrites.2.1 emptyStores fixerDoc
      (makeDiagnostic false (wsProblem "whitespace")) (wsProblem "whitespace")
      ⟨List.Pairwise.nil, List.Pairwise.nil, by simp [emptyStores], by simp [emptyStores]⟩,
    fix_store_key_unique_and_overwrites.2.2 emptyStores fixerDoc _ _
      (wsProblem "whitespace") (wsProblem "whitespace") rfl (by decide)⟩

/-- Counterexample to claim C8 as stated: the fallback table is keyed by
the rule name, not by the exact failure message.  Two engine-fixless
failures carry the identical message "missing whitespace"; the one whose
rule is `whitespace` gets a fallback fix recorded, while the one with
another rule name gets none — so the fallback consulted is not a function
of the failure message. -/
theorem fallback_not_keyed_by_message :
    (wsProblem "whitespace").failure = (wsProblem "other-rule").failure ∧
    (wsProblem "whitespace").fix = none ∧
    (wsProblem "other-rule").fix = none ∧
    (computedFix fixerDoc (wsProblem "whitespace")).isSome = true ∧
    computedFix fixerDoc (wsProblem "other-rule") = none ∧
    (recordCodeAction emptyStores fixerDoc
      (makeDiagnostic false (wsProblem "other-rule"))
      (wsProblem "other-rule")).codeFixActions = [] ∧
    (recordCodeAction emptyStores fixerDoc
      (makeDiagnostic false (wsProblem "whitespace"))
      (wsProblem "whitespace")).codeFixActions ≠ [] := by
  refine ⟨rfl, rfl, rfl, ?_, ?_, ?_, ?_⟩ <;> decide

/-- Claim C8 theorem (amended).  When the engine fix is absent or has zero
edits, `recordCodeAction` uses the fixer fallback — a table keyed by the
failure's rule name whose creators further match the exact failure
message; the fallback outcome depends only on the rule name, the message,
the failure positions and the document.  If neither an engine fix nor a
fallback exists, no fix is recorded (the fix store is unchanged), and the
failure still produces a diagnostic in the validation loop. -/
theorem fallback_fix_behaviour :
    (∀ (document : TextDocument) (problem : RuleFailure),
      (problem.fix = none ∨
        ∃ f, problem.fix = some f ∧ replacementsAreEmpty (some f) = true) →
      computedFix document problem =
        (createVscFixForRuleFailure problem document).map
          (fun v => createAutoFix problem document (.vsc v))) ∧
    (∀ (p q : RuleFailure) (document : TextDocument),
      p.ruleName = q.ruleName → p.failure = q.failure →
      p.startPos = q.startPos → p.endPos = q.endPos →
      createVscFixForRuleFailure p document = createVscFixForRuleFailure q document) ∧
    (∀ (stores : CodeActionStores) (document : TextDocument) (diagnostic : Diagnostic)
        (problem : RuleFailure), computedFix document problem = none →
      (recordCodeAction stores document diagnostic problem).codeFixActions =
        stores.codeFixActions) ∧
    (∀ (alwaysWarnings : Bool) (document : TextDocument) (stores : CodeActionStores)
        (failures : List RuleFailure),
      (processFailures alwaysWarnings document stores failures).1 =
        failures.map (makeDiagnostic alwaysWarnings)) := by
  refine ⟨?_, ?_, ?_, ?_⟩
  · intro document problem h
    rcases h with hfix | ⟨f, hfix, hemp⟩
    · cases hv : createVscFixForRuleFailure problem document <;>
      simp [computedFix, hfix, hv]
    · cases hv : createVscFixForRuleFailure problem document <;>
      simp [computedFix, hfix, hemp, hv]
  · intro p q document hrn hfl hsp hep
    obtain ⟨fn₁, rn₁, fl₁, sv₁, sp₁, ep₁, fx₁⟩ := p
    obtain ⟨fn₂, rn₂, fl₂, sv₂, sp₂, ep₂, fx₂⟩ := q
    simp only at hrn hfl hsp hep
    subst hrn hfl hsp hep
    unfold createVscFixForRuleFailure fixCreators
    split_ifs <;>
    simp [quoteFixCreator, whiteSpaceFixCreator, tripleEqualsFixCreator,
      commentFormatFixCreator, convertProblemPositionsToRange, convertToServerPosition]
  · intro stores document diagnostic problem h
    unfold recordCodeAction
    simp only [h]
  · intro alwaysWarnings document stores failures
    induction failures generalizing stores with
    | nil => rfl
    | cons problem rest ih => simp [processFailures, ih]

/-- Witness for C8: a concrete failure with no engine fix gets the fixer
fallback, and a concrete failure with neither gets nothing recorded. -/
theorem fallback_fix_behaviour_witness :
    computedFix fixerDoc (wsProblem "whitespace") =
      (createVscFixForRuleFailure (wsProblem "whitespace") fixerDoc).map
        (fun v => createAutoFix (wsProblem "whitespace") fixerDoc (.vsc v)) ∧
    (recordCodeAction emptyStores fixerDoc
      (makeDiagnostic false (wsProblem "missing-rule"))
      (wsProblem "missing-rule")).codeFixActions = emptyStores.codeFixActions :=
  ⟨fallback_fix_behaviour.1 fixerDoc (wsProblem "whitespace") (Or.inl rfl),
    fallback_fix_behaviour.2.2.1 emptyStores fixerDoc
      (makeDiagnostic false (wsProblem "missing-rule")) (wsProblem "missing-rule")
      (by decide)⟩

/-- Claim C7 theorem.  On every exit path of `doRun` — the early returns
before the interception is installed, the normal return of the lint call,
and the exceptional exit where the engine's error propagates — the
`console.warn` sink afterwards equals the sink from before the call: the
scoped interception never outlives a single lint call. -/
theorem doRun_restores_console_sink (library : LinterLibrary) (engine : LintEngine)
    (globMatch : String → String → Bool) (cache : ConfigCache)
    (console : ConsoleState) (filePath : String)
    (configuration : RunConfiguration) (warnings : List String) :
    ((doRun library engine globMatch cache console filePath configuration
        warnings).2.2).warn = console.warn := by
  unfold doRun
  split
  · rfl
  · split
    · rfl
    · rfl
    · split_ifs
      · rfl
      · rfl
      · rfl
      · split <;> rfl

/-- Counterexample to claim C6 as stated: in the runner variant the
engine's exception is NOT converted into an empty result — `doRun` only
restores the console sink in its `finally` and the error propagates to the
caller of the lint-running operation. -/
theorem lint_crash_propagates_concrete :
    (doRun okLibrary crashingEngine noGlob emptyConfigCache freshConsole
      "/p/a.ts" basicRunConfiguration []).1 = Except.error "engine crash" := rfl

/-- Claim C6 theorem (amended).  In the language-server variant,
`doValidate` catches every engine exception thrown by the lint call,
reports it (console message plus error status) and returns empty
diagnostics.  In the runner variant, `TsLintRunner.doRun` does not catch
the engine exception: when the guards pass and the engine throws, the
error is returned to `doRun`'s caller. -/
theorem engine_crash_caught_or_propagated :
    (∀ (env : ValidateEnv) (document : TextDocument) (stores : CodeActionStores)
        (fsPath : String) (settings : ServerSettings) (cfg : Configuration) (e : String),
      env.uriToFilePath document.uri = some fsPath →
      env.settings = some settings →
      serverFileIsExcluded env.globMatch settings fsPath = false →
      env.configOutcome = .ok (some cfg) →
      (isJsDocument document && !settings.jsEnable) = false →
      (decide (settings.validateWithDefaultConfig = some false) &&
        cfg.isDefaultLinterConfig) = false →
      (!env.isTsLint4 && isJsDocument document) = false →
      env.lintOutcome = .error e →
      doValidate env document stores =
        { diagnostics := [],
          stores := { codeFixActions := alistRemove stores.codeFixActions document.uri,
                      codeDisableRuleActions :=
                        alistRemove stores.codeDisableRuleActions document.uri },
          statusNotifications := [Status.error],
          infoMessages := [getErrorMessage env.uriToFilePath e document] }) ∧
    (∀ (library : LinterLibrary) (engine : LintEngine)
        (globMatch : String → String → Bool) (cache cache1 : ConfigCache)
        (console : ConsoleState) (filePath : String)
        (configuration : RunConfiguration) (warnings : List String)
        (cfg : Configuration) (e : String),
      engine.outcome = .error e →
      fileIsExcluded globMatch configuration filePath = false →
      getConfiguration library cache filePath configuration.configFile =
        (.ok (some cfg), cache1) →
      (isJsDocumentPath filePath && !configuration.jsEnable) = false →
      (decide (configuration.validateWithDefaultConfig = some false) &&
        (cache1.configuration.map (fun c => c.isDefaultLinterConfig)).getD false) = false →
      isExcludedFromLinterOptions globMatch cfg.linterConfiguration filePath = false →
      (doRun library engine globMatch cache console filePath configuration
        warnings).1 = .error e) := by
  constructor
  · intro env document stores fsPath settings cfg e h1 h2 h3 h4 h5 h6 h7 h8
    simp [doValidate, h1, h2, h3, h4, h5, h6, h7, h8]
  · intro library engine globMatch cache cache1 console filePath configuration warnings
      cfg e h1 h2 h3 h4 h5 h6
    simp [doRun, h1, h2, h3, h4, h5, h6]

/-- Witness for C6: concrete environments exercising both conjuncts — the
crash is caught by `doValidate` and propagated by `doRun`. -/
theorem engine_crash_caught_or_propagated_witness :
    doValidate
        { uriToFilePath := fun _ => some "/p/a.ts",
          settings := some { jsEnable := false, validateWithDefaultConfig := none,
                             configFile := none, ignoreDefinitionFiles := false,
                             exclude := [], alwaysShowRuleFailuresAsWarnings := false },
          globMatch := noGlob,
          configOutcome := .ok (some { linterConfiguration := some basicConfig,
                                       isDefaultLinterConfig := false,
                                       path := some "/p/tslint.json" }),
          isTsLint4 := true,
          lintOutcome := .error "boom",
          normalizePath := fun p => p }
        fixerDoc emptyStores =
      { diagnostics := [],
        stores := { codeFixActions := [], codeDisableRuleActions := [] },
        statusNotifications := [Status.error],
        infoMessages := ["vscode-tslint: 'boom' while validating: /p/a.ts"] } ∧
    (doRun okLibrary crashingEngine noGlob emptyConfigCache freshConsole
      "/p/a.ts" basicRunConfiguration []).1 = .error "engine crash" := by
  constructor
  · have h := engine_crash_caught_or_propagated.1
      { uriToFilePath := fun _ => some "/p/a.ts",
        settings := some { jsEnable := false, validateWithDefaultConfig := none,
                           configFile := none, ignoreDefinitionFiles := false,
                           exclude := [], alwaysShowRuleFailuresAsWarnings := false },
        globMatch := noGlob,
        configOutcome := .ok (some { linterConfiguration := some basicConfig,
                                     isDefaultLinterConfig := false,
                                     path := some "/p/tslint.json" }),
        isTsLint4 := true,
        lintOutcome := .error "boom",
        normalizePath := fun p => p }
      fixerDoc emptyStores "/p/a.ts"
      { jsEnable := false, validateWithDefaultConfig := none, configFile := none,
        ignoreDefinitionFiles := false, exclude := [],
        alwaysShowRuleFailuresAsWarnings := false }
      { linterConfiguration := some basicConfig, isDefaultLinterConfig := false,
        path := some "/p/tslint.json" }
      "boom" rfl rfl rfl rfl rfl rfl rfl rfl
    rw [h]
    rfl
  · exact engine_crash_caught_or_propagated.2 okLibrary crashingEngine noGlob
      emptyConfigCache
      { filePath := some "/p/a.ts",
        configuration := some { linterConfiguration := some basicConfig,
                                isDefaultLinterConfig := false,
                                path := some "/p/tslint.json" } }
      freshConsole "/p/a.ts" basicRunConfiguration []
      { linterConfiguration := some basicConfig, isDefaultLinterConfig := false,
        path := some "/p/tslint.json" }
      "engine crash" rfl rfl rfl rfl rfl rfl

/-- After a successful `getConfiguration` call the returned cache maps the
path to the returned configuration. -/
theorem getConfiguration_ok_cache {library : LinterLibrary} {cache cache1 : ConfigCache}
    {filePath : String} {configFileName : Option String} {c : Configuration}
    (h : getConfiguration library cache filePath configFileName = (.ok (some c), cache1)) :
    configCacheGet cache1 filePath = some c := by
  unfold getConfiguration at h
  cases hget : configCacheGet cache filePath with
  | some cfg =>
    rw [hget] at h
    simp only [Prod.mk.injEq, Except.ok.injEq, Option.some.injEq] at h
    obtain ⟨rfl, rfl⟩ := h
    exact hget
  | none =>
    rw [hget] at h
    simp only at h
    cases hres : (library.findConfiguration configFileName filePath).error with
    | some err =>
      rw [hres] at h
      simp at h
    | none =>
      rw [hres] at h
      simp only [configCacheSet, Prod.mk.injEq, Except.ok.injEq, Option.some.injEq] at h
      obtain ⟨rfl, rfl⟩ := h
      simp [configCacheGet]

/-- Claim C5 theorem.  A second `getConfiguration` call for the same path
with no intervening invalidation is a cache hit: it returns the identical
configuration record and leaves the cache unchanged.  After a
`ConfigCache.flush`, the same path is resolved freshly through the
library, and the freshly built configuration is stored back into the
cache. -/
theorem config_cache_hit_and_flush_recompute :
    (∀ (library : LinterLibrary) (cache cache1 : ConfigCache) (filePath : String)
        (configFileName : Option String) (c : Configuration),
      getConfiguration library cache filePath configFileName = (.ok (some c), cache1) →
      getConfiguration library cache1 filePath configFileName = (.ok (some c), cache1)) ∧
    (∀ (library : LinterLibrary) (cache : ConfigCache) (filePath : String)
        (configFileName : Option String),
      (library.findConfiguration configFileName filePath).error = none →
      getConfiguration library (configCacheFlush cache) filePath configFileName =
        (.ok (some (freshConfiguration library filePath configFileName)),
         { filePath := some filePath,
           configuration := some (freshConfiguration library filePath configFileName) })) := by
  constructor
  · intro library cache cache1 filePath configFileName c h
    have hc : configCacheGet cache1 filePath = some c :=
      getConfiguration_ok_cache h
    unfold getConfiguration
    rw [hc]
  · intro library cache filePath configFileName h
    unfold getConfiguration
    have hget : configCacheGet (configCacheFlush cache) filePath = none := rfl
    rw [hget]
    simp only [h, freshConfiguration, configCacheSet]

/-- Witness for C5: with a concrete library, the second call returns the
first call's configuration and leaves the cache unchanged, and after a
flush the configuration is recomputed and stored. -/
theorem config_cache_hit_and_flush_recompute_witness :
    getConfiguration okLibrary
        { filePath := some "/p/a.ts",
          configuration := some (freshConfiguration okLibrary "/p/a.ts" none) }
        "/p/a.ts" none =
      (.ok (some (freshConfiguration okLibrary "/p/a.ts" none)),
       { filePath := some "/p/a.ts",
         configuration := some (freshConfiguration okLibrary "/p/a.ts" none) }) ∧
    getConfiguration okLibrary (configCacheFlush emptyConfigCache) "/p/a.ts" none =
      (.ok (some (freshConfiguration okLibrary "/p/a.ts" none)),
       { filePath := some "/p/a.ts",
         configuration := some (freshConfiguration okLibrary "/p/a.ts" none) }) := by
  constructor
  · exact config_cache_hit_and_flush_recompute.1 okLibrary emptyConfigCache
      { filePath := some "/p/a.ts",
        configuration := some (freshConfiguration okLibrary "/p/a.ts" none) }
      "/p/a.ts" none (freshConfiguration okLibrary "/p/a.ts" none) rfl
  · exact config_cache_hit_and_flush_recompute.2 okLibrary emptyConfigCache
      "/p/a.ts" none rfl

end VscTslint
